import Mathlib

/-!
# A verification of the `xuid` identifier library

This file shallowly embeds the `xuid` Go package: a compact identifier that
wraps a 16-byte UUID together with an optional human-readable tag (the Go
field is called `prefix`; we use `tag` since `prefix` is a Lean keyword),
rendered as `[<tag> "_"]<base58(uuid)>`.

Go strings are modelled as `List Char`, byte slices as `List Nat` (each
element intended to be `< 256`), and fallible operations as `Except`/`Option`
returning functions.  The external collaborators (the btcsuite base58 codec
and the google/uuid library) are embedded from their published sources, since
the package's contracts depend on their exact behaviour.
-/

namespace Xuid

/-! ## The btcsuite base58 codec

`base58.Encode` interprets the input bytes as a big-endian natural number,
writes it in base 58 over the Bitcoin alphabet, and prepends one `'1'`
(the digit of value 0) per leading zero byte.  `base58.Decode` folds the
digit values into a natural number, returns the empty slice on any character
outside the alphabet, and prepends one zero byte per leading `'1'`. -/

/-- The Bitcoin base58 alphabet
`"123456789ABCDEFGHJKLMNPQRSTUVWXYZabcdefghijkmnopqrstuvwxyz"`. -/
def b58chars : List Char :=
  "123456789ABCDEFGHJKLMNPQRSTUVWXYZabcdefghijkmnopqrstuvwxyz".toList

/-- Value of one base58 character; `none` models the 255 entries of the Go
`b58` lookup table (invalid character). -/
def b58Index (c : Char) : Option Nat :=
  b58chars.findIdx? (fun x => x == c)

/-- Values of a base58 string, `none` as soon as one character is invalid
(the Go decode loop returns early on the first invalid character). -/
def b58DigitsOf : List Char → Option (List Nat)
  | [] => some []
  | c :: cs =>
    match b58Index c, b58DigitsOf cs with
    | some d, some ds => some (d :: ds)
    | _, _ => none

/-- `answer.Mul(answer, bigRadix).Add(answer, d)` folded over the digits. -/
def b58Val (ds : List Nat) : Nat :=
  ds.foldl (fun acc d => acc * 58 + d) 0

/-- `x.SetBytes(b)`: the bytes read as a big-endian natural number. -/
def beVal (b : List Nat) : Nat :=
  b.foldl (fun acc d => acc * 256 + d) 0

/-- Number of leading zero bytes, as counted by the encoder's second loop. -/
def leadingZeroCount (b : List Nat) : Nat :=
  (b.takeWhile (fun x => x == 0)).length

/-- `base58.Encode`: leading-zero `'1'` markers followed by the base-58
digits of the big-endian value, most significant first. -/
def base58Encode (b : List Nat) : List Char :=
  List.replicate (leadingZeroCount b) '1'
    ++ ((Nat.digits 58 (beVal b)).reverse.map (fun d => b58chars.getD d ' '))

/-- `base58.Decode`: empty slice on an invalid character, otherwise one zero
byte per leading `'1'` followed by the big-endian bytes of the value
(`big.Int.Bytes`, empty for zero). -/
def base58Decode (s : List Char) : List Nat :=
  match b58DigitsOf s with
  | none => []
  | some ds =>
    List.replicate ((s.takeWhile (fun c => c == '1')).length) 0
      ++ (Nat.digits 256 (b58Val ds)).reverse

/-! ### Facts about the base58 codec -/

theorem foldl_mul_add (k a : Nat) (l : List Nat) :
    l.foldl (fun acc d => acc * k + d) a = a * k ^ l.length + Nat.ofDigits k l.reverse := by
  induction l generalizing a with
  | nil => simp [Nat.ofDigits]
  | cons x xs ih =>
    simp only [List.foldl_cons, ih, List.reverse_cons, Nat.ofDigits_append,
      List.length_reverse, List.length_cons, Nat.ofDigits_singleton, pow_succ]
    ring

theorem beVal_eq_ofDigits (b : List Nat) : beVal b = Nat.ofDigits 256 b.reverse := by
  simpa using foldl_mul_add 256 0 b

theorem b58Val_eq_ofDigits (ds : List Nat) : b58Val ds = Nat.ofDigits 58 ds.reverse := by
  simpa using foldl_mul_add 58 0 ds

theorem b58Index_getD (d : Nat) (h : d < 58) :
    b58Index (b58chars.getD d ' ') = some d := by
  revert d h; decide

theorem b58chars_getD_ne_one (d : Nat) (h : d < 58) (h0 : d ≠ 0) :
    b58chars.getD d ' ' ≠ '1' := by
  revert d h h0; decide

theorem b58chars_getD_ne_underscore (d : Nat) (h : d < 58) :
    b58chars.getD d ' ' ≠ '_' := by
  revert d h; decide

theorem b58DigitsOf_map_getD (ds : List Nat) (h : ∀ d ∈ ds, d < 58) :
    b58DigitsOf (ds.map (fun d => b58chars.getD d ' ')) = some ds := by
  induction ds with
  | nil => rfl
  | cons d ds ih =>
    have hd : d < 58 := h d (List.mem_cons_self d ds)
    have hds := ih (fun x hx => h x (List.mem_cons_of_mem d hx))
    simp only [List.map_cons, b58DigitsOf, b58Index_getD d hd, hds]

theorem b58DigitsOf_ones (k : Nat) (l : List Char) (ds : List Nat)
    (h : b58DigitsOf l = some ds) :
    b58DigitsOf (List.replicate k '1' ++ l) = some (List.replicate k 0 ++ ds) := by
  induction k with
  | zero => simpa using h
  | succ k ih =>
    have h1 : b58Index '1' = some 0 := by decide
    simp [List.replicate_succ, b58DigitsOf, h1, ih]

theorem b58Val_zeros (k : Nat) (ds : List Nat) :
    b58Val (List.replicate k 0 ++ ds) = b58Val ds := by
  have hz : ∀ m : Nat, (List.replicate m 0).foldl (fun acc d => acc * 58 + d) 0 = 0 := by
    intro m
    induction m with
    | zero => rfl
    | succ m ih => simpa [List.replicate_succ] using ih
  simp [b58Val, List.foldl_append, hz k]

theorem b58Val_digits_reverse (n : Nat) :
    b58Val ((Nat.digits 58 n).reverse) = n := by
  rw [b58Val_eq_ofDigits, List.reverse_reverse, Nat.ofDigits_digits]

theorem ofDigits_replicate_zero (b k : Nat) :
    Nat.ofDigits b (List.replicate k 0) = 0 := by
  induction k with
  | zero => rfl
  | succ k ih => simp [List.replicate_succ, Nat.ofDigits_cons, ih]

theorem dropWhile_head_false {α : Type} {p : α → Bool} {l : List α} {x : α} {xs : List α}
    (h : l.dropWhile p = x :: xs) : p x = false := by
  induction l with
  | nil => simp at h
  | cons a as ih =>
    rw [List.dropWhile_cons] at h
    by_cases ha : p a = true
    · rw [if_pos ha] at h
      exact ih h
    · rw [if_neg ha] at h
      cases h
      exact Bool.eq_false_iff.mpr ha

theorem digits_getLast?_ne_zero (b n : Nat) (hn : n ≠ 0) (e : Nat)
    (he : (Nat.digits b n).getLast? = some e) : e ≠ 0 := by
  have hnil : Nat.digits b n ≠ [] := Nat.digits_ne_nil_iff_ne_zero.mpr hn
  have h0 : (Nat.digits b n).getLast hnil ≠ 0 := Nat.getLast_digit_ne_zero b hn
  rw [List.getLast?_eq_getLast _ hnil] at he
  exact Option.some.inj he ▸ h0

theorem takeWhile_eq_replicate_zero (b : List Nat) :
    b.takeWhile (fun x => x == 0) = List.replicate (leadingZeroCount b) 0 := by
  rw [List.eq_replicate_iff]
  refine ⟨rfl, fun x hx => ?_⟩
  have := List.mem_takeWhile_imp hx
  simpa using this

/-- `big.Int.Bytes (SetBytes b)` drops exactly the leading zero bytes. -/
theorem digits_beVal (b : List Nat) (hb : ∀ x ∈ b, x < 256) :
    (Nat.digits 256 (beVal b)).reverse = b.dropWhile (fun x => x == 0) := by
  have hsplit : b.takeWhile (fun x => x == 0) ++ b.dropWhile (fun x => x == 0) = b :=
    List.takeWhile_append_dropWhile _ _
  have hval : beVal b = Nat.ofDigits 256 (b.dropWhile (fun x => x == 0)).reverse := by
    rw [beVal_eq_ofDigits]
    conv_lhs => rw [← hsplit]
    rw [List.reverse_append, Nat.ofDigits_append, takeWhile_eq_replicate_zero,
      List.reverse_replicate, ofDigits_replicate_zero]
    ring
  rw [hval]
  rcases hd : b.dropWhile (fun x => x == 0) with _ | ⟨x, xs⟩
  · simp [Nat.ofDigits]
  · rw [Nat.digits_ofDigits 256 (by norm_num)]
    · exact List.reverse_reverse _
    · intro l hl
      have hmem : l ∈ b := by
        have hsub := (List.dropWhile_sublist (l := b) (fun x => x == 0)).subset
        exact hsub (by rw [hd]; simpa using List.mem_reverse.mp hl)
      exact hb l hmem
    · intro hne
      rw [List.getLast_reverse, List.head_cons]
      have hx : (x == 0) = false := dropWhile_head_false (p := fun x => x == 0) hd
      simpa using hx

theorem mem_base58Encode (b : List Nat) (c : Char) (hc : c ∈ base58Encode b) :
    c = '1' ∨ ∃ d, d < 58 ∧ c = b58chars.getD d ' ' := by
  rcases List.mem_append.mp hc with h1 | h2
  · exact Or.inl (List.eq_of_mem_replicate h1)
  · rcases List.mem_map.mp h2 with ⟨d, hd, rfl⟩
    exact Or.inr ⟨d, Nat.digits_lt_base (by norm_num) (List.mem_reverse.mp hd), rfl⟩

theorem underscore_not_mem_base58Encode (b : List Nat) : '_' ∉ base58Encode b := by
  intro hmem
  rcases mem_base58Encode b _ hmem with h1 | ⟨d, hd, he⟩
  · exact absurd h1 (by decide)
  · exact b58chars_getD_ne_underscore d hd he.symm

/-- The count of leading `'1'` characters of an encoded token equals the count
of leading zero bytes of the source. -/
theorem takeWhile_one_base58Encode (b : List Nat) :
    ((base58Encode b).takeWhile (fun c => c == '1')).length = leadingZeroCount b := by
  unfold base58Encode
  by_cases h0 : beVal b = 0
  · rw [h0]
    simp [List.takeWhile_replicate]
  · have hnil : Nat.digits 58 (beVal b) ≠ [] := Nat.digits_ne_nil_iff_ne_zero.mpr h0
    have hrne : (Nat.digits 58 (beVal b)).reverse ≠ [] := by simpa using hnil
    rcases hp : (Nat.digits 58 (beVal b)).reverse with _ | ⟨e, es⟩
    · exact absurd hp hrne
    have he_lt : e < 58 := by
      have : e ∈ Nat.digits 58 (beVal b) := List.mem_reverse.mp (by rw [hp]; simp)
      exact Nat.digits_lt_base (by norm_num) this
    have he_ne : e ≠ 0 := by
      refine digits_getLast?_ne_zero 58 (beVal b) h0 e ?_
      rw [← List.head?_reverse, hp, List.head?_cons]
    have hchar : (b58chars.getD e ' ' == '1') = false := by
      simpa using b58chars_getD_ne_one e he_lt he_ne
    simp [List.takeWhile_append, List.takeWhile_replicate, List.takeWhile_cons]
    simpa [List.getD] using hchar

/-- Round trip of the btcsuite codec: decoding an encoded byte string gives
back exactly the input bytes. -/
theorem base58_decode_encode (b : List Nat) (hb : ∀ x ∈ b, x < 256) :
    base58Decode (base58Encode b) = b := by
  have hdig : b58DigitsOf (base58Encode b)
      = some (List.replicate (leadingZeroCount b) 0
          ++ (Nat.digits 58 (beVal b)).reverse) := by
    unfold base58Encode
    exact b58DigitsOf_ones _ _ _
      (b58DigitsOf_map_getD _
        (fun d hd => Nat.digits_lt_base (by norm_num) (List.mem_reverse.mp hd)))
  unfold base58Decode
  rw [hdig]
  simp only [takeWhile_one_base58Encode, b58Val_zeros, b58Val_digits_reverse]
  rw [digits_beVal b hb, ← takeWhile_eq_replicate_zero]
  exact List.takeWhile_append_dropWhile _ _

/-! ## The XUID type

`type XUID struct { uuid uuid.UUID; prefix string }`.  The Go `prefix` field
is called `tag` here (`prefix` is reserved in Lean). -/

structure XUID where
  uuid : List Nat
  tag : List Char
deriving DecidableEq

/-- `uuid.Nil`, the all-zero 16-byte sentinel. -/
def nilUUID : List Nat := List.replicate 16 0

/-- `XUID.String`: `base58(uuid)` for an empty tag, `tag + "_" + base58(uuid)`
otherwise (`uuid.MarshalBinary` returns the 16 raw bytes and never fails). -/
def XUID.toText (x : XUID) : List Char :=
  if x.tag = [] then base58Encode x.uuid
  else x.tag ++ '_' :: base58Encode x.uuid

/-- `XUID.Equal`: `x.String() == y.String()`. -/
def XUID.equal (x y : XUID) : Bool := x.toText == y.toText

/-- `ErrParse`, the only error `Parse` returns. -/
inductive XuidError
  | errParse
deriving DecidableEq

/-- `strings.LastIndex(s, "_")`: byte index of the last occurrence, `none`
standing for Go's `-1`. -/
def lastIndexOf (c : Char) : List Char → Option Nat
  | [] => none
  | a :: as =>
    match lastIndexOf c as with
    | some i => some (i + 1)
    | none => if a == c then some 0 else none

/-- The tag/payload split performed by the first four lines of `Parse`:
`uuidstr := idstr[underscoreIndex+1:]` and
`prefix = idstr[:underscoreIndex]` when the separator was found. -/
def splitTag (s : List Char) : List Char × List Char :=
  match lastIndexOf '_' s with
  | none => ([], s)
  | some i => (s.take i, s.drop (i + 1))

/-- `Parse`: split at the last `'_'`, base58-decode the payload, and build
the identifier via `uuid.FromBytes`, which fails exactly when the decoded
slice is not 16 bytes long (`ErrParse`). -/
def Parse (s : List Char) : Except XuidError XUID :=
  let t := splitTag s
  let bs := base58Decode t.2
  if bs.length = 16 then .ok ⟨bs, t.1⟩ else .error .errParse

/-- `IsValid`: a parse attempt reported as a Bool. -/
def IsValid (s : List Char) : Bool :=
  match Parse s with
  | .ok _ => true
  | .error _ => false

/-- `IsEmpty`: `xid.uuid == uuid.Nil`. -/
def IsEmpty (x : XUID) : Bool := x.uuid == nilUUID

/-- `uuid.Version()`: the high nibble of byte 6 (`uuid[6] >> 4`). -/
def XUID.version (x : XUID) : Nat := x.uuid.getD 6 0 / 16

/-- `uuid.Version.String()`: `fmt.Sprintf("VERSION_%d", v)` for `v ≤ 15`. -/
def versionName (v : Nat) : List Char :=
  if v > 15 then "BAD_VERSION_".toList ++ Nat.toDigits 10 v
  else "VERSION_".toList ++ Nat.toDigits 10 v

/-- `XUID.IsSortable`: `x.GetUUID().Version().String() == "VERSION_7"`. -/
def XUID.isSortable (x : XUID) : Bool :=
  versionName x.version == "VERSION_7".toList

/-- `XUID.IsRandom`: `x.GetUUID().Version().String() == "VERSION_4"`. -/
def XUID.isRandom (x : XUID) : Bool :=
  versionName x.version == "VERSION_4".toList

/-! ### The last-separator split -/

theorem lastIndexOf_eq_none (c : Char) (s : List Char) (h : c ∉ s) :
    lastIndexOf c s = none := by
  induction s with
  | nil => rfl
  | cons a as ih =>
    have ha : ¬ a = c := fun he => h (he ▸ List.mem_cons_self a as)
    have has : c ∉ as := fun hm => h (List.mem_cons_of_mem a hm)
    simp [lastIndexOf, ih has, ha]

theorem lastIndexOf_append_cons (c : Char) (t p : List Char) (hp : c ∉ p) :
    lastIndexOf c (t ++ c :: p) = some t.length := by
  induction t with
  | nil => simp [lastIndexOf, lastIndexOf_eq_none c p hp]
  | cons a as ih => simp [lastIndexOf, ih]

theorem splitTag_append (t p : List Char) (hp : '_' ∉ p) :
    splitTag (t ++ '_' :: p) = (t, p) := by
  unfold splitTag
  rw [lastIndexOf_append_cons '_' t p hp]
  have h1 : List.take t.length (t ++ '_' :: p) = t := List.take_left t _
  have h2 : List.drop (t.length + 1) (t ++ '_' :: p) = p := by
    have he : t ++ '_' :: p = (t ++ ['_']) ++ p := by simp
    rw [he, show t.length + 1 = (t ++ ['_']).length by simp]
    exact List.drop_left _ _
  simp [h1, h2]

theorem splitTag_no_sep (s : List Char) (h : '_' ∉ s) : splitTag s = ([], s) := by
  unfold splitTag
  rw [lastIndexOf_eq_none '_' s h]

theorem exists_last_sep_split (s : List Char) (h : '_' ∈ s) :
    ∃ t p, s = t ++ '_' :: p ∧ '_' ∉ p := by
  induction s with
  | nil => cases h
  | cons a as ih =>
    by_cases has : '_' ∈ as
    · obtain ⟨t, p, rfl, hp⟩ := ih has
      exact ⟨a :: t, p, rfl, hp⟩
    · have ha : a = '_' := by
        rcases List.mem_cons.mp h with h1 | h2
        · exact h1.symm
        · exact absurd h2 has
      exact ⟨[], as, by rw [ha]; rfl, has⟩

/-- The canonical encode/parse round trip, the workhorse behind several
claims: parsing the canonical text of any well-formed identifier returns
the identifier unchanged, whatever the tag. -/
theorem parse_toText (v : List Nat) (t : List Char) (hl : v.length = 16)
    (hb : ∀ x ∈ v, x < 256) :
    Parse (XUID.toText ⟨v, t⟩) = Except.ok ⟨v, t⟩ := by
  unfold Parse
  rcases ht : t with _ | ⟨a, as⟩
  · have htext : XUID.toText ⟨v, []⟩ = base58Encode v := by simp [XUID.toText]
    rw [htext, splitTag_no_sep _ (underscore_not_mem_base58Encode v)]
    simp [base58_decode_encode v hb, hl]
  · have htext : XUID.toText ⟨v, a :: as⟩ = (a :: as) ++ '_' :: base58Encode v := by
      simp [XUID.toText]
    rw [htext, splitTag_append _ _ (underscore_not_mem_base58Encode v)]
    simp [base58_decode_encode v hb, hl]

/-! ## The google/uuid textual form

`uuid.String()` renders the 16 bytes as lowercase hex in the canonical
dashed groups 8-4-4-4-12; `uuid.Parse` accepts the canonical form, the
`urn:uuid:` form, a brace-wrapped form and the bare 32-hex form, reading
byte values through the `xtob` hex table. -/

def hexAlphabet : List Char := "0123456789abcdef".toList

def hexDigit (n : Nat) : Char := hexAlphabet.getD n ' '

/-- `hex.Encode` of one byte: high nibble then low nibble, lowercase. -/
def hexPair (b : Nat) : List Char := [hexDigit (b / 16), hexDigit (b % 16)]

def hexBytes : List Nat → List Char
  | [] => []
  | b :: bs => hexPair b ++ hexBytes bs

/-- `uuid.String()` / `encodeHex`: groups `uuid[0:4]`, `[4:6]`, `[6:8]`,
`[8:10]`, `[10:16]` joined by `'-'`. -/
def uuidToString (v : List Nat) : List Char :=
  hexBytes (v.take 4) ++ '-' :: hexBytes ((v.drop 4).take 2) ++ '-' ::
    hexBytes ((v.drop 6).take 2) ++ '-' :: hexBytes ((v.drop 8).take 2) ++ '-' ::
      hexBytes (v.drop 10)

/-- The `xvalues` table: value of one hex character, `none` for 255. -/
def xval (c : Char) : Option Nat :=
  if '0' ≤ c ∧ c ≤ '9' then some (c.toNat - '0'.toNat)
  else if 'a' ≤ c ∧ c ≤ 'f' then some (c.toNat - 'a'.toNat + 10)
  else if 'A' ≤ c ∧ c ≤ 'F' then some (c.toNat - 'A'.toNat + 10)
  else none

/-- `xtob(x1, x2)`: one byte from two hex characters. -/
def xtob (c1 c2 : Char) : Option Nat :=
  match xval c1, xval c2 with
  | some h, some l => some (h * 16 + l)
  | _, _ => none

/-- One byte per listed position: `xtob(s[x], s[x+1])` for each `x`,
failing as soon as one pair is not hex. -/
def readPairs (s : List Char) : List Nat → Option (List Nat)
  | [] => some []
  | i :: is =>
    match xtob (s.getD i ' ') (s.getD (i + 1) ' '), readPairs s is with
    | some b, some bs => some (b :: bs)
    | _, _ => none

/-- The sixteen byte positions of the canonical dashed form. -/
def hexPositions : List Nat := [0, 2, 4, 6, 9, 11, 14, 16, 19, 21, 24, 26, 28, 30, 32, 34]

/-- The 36-character core of `uuid.Parse`: dashes at 8, 13, 18, 23, hex
bytes at `hexPositions`. -/
def parseCanonical (s : List Char) : Option (List Nat) :=
  if s.getD 8 ' ' == '-' && s.getD 13 ' ' == '-' && s.getD 18 ' ' == '-'
      && s.getD 23 ' ' == '-' then
    readPairs s hexPositions
  else none

/-- `uuid.Parse`, following its `switch len(s)`. -/
def uuidParse (s : List Char) : Option (List Nat) :=
  if s.length = 36 then parseCanonical s
  else if s.length = 45 then
    if (s.take 9).map Char.toLower = "urn:uuid:".toList then
      parseCanonical (s.drop 9)
    else none
  else if s.length = 38 then parseCanonical (s.drop 1)
  else if s.length = 32 then
    readPairs s [0, 2, 4, 6, 8, 10, 12, 14, 16, 18, 20, 22, 24, 26, 28, 30]
  else none

/-! ### Round trip of the canonical dashed form -/

set_option maxRecDepth 8192 in
theorem xtob_hexPair : ∀ b, b < 256 → xtob (hexDigit (b / 16)) (hexDigit (b % 16)) = some b := by
  decide

theorem readPairs_cons (s : List Char) (i : Nat) (is : List Nat) (b : Nat) (bs : List Nat)
    (h1 : xtob (s.getD i ' ') (s.getD (i + 1) ' ') = some b)
    (h2 : readPairs s is = some bs) :
    readPairs s (i :: is) = some (b :: bs) := by
  rw [readPairs, h1, h2]

set_option maxHeartbeats 2000000 in
theorem uuidParse_toString (v : List Nat) (hl : v.length = 16) (hb : ∀ x ∈ v, x < 256) :
    uuidParse (uuidToString v) = some v := by
  obtain ⟨b0, v, rfl⟩ := List.exists_of_length_succ v hl
  have hl1 : v.length = 15 := by simp only [List.length_cons] at hl; omega
  obtain ⟨b1, v, rfl⟩ := List.exists_of_length_succ v hl1
  have hl2 : v.length = 14 := by simp only [List.length_cons] at hl1; omega
  obtain ⟨b2, v, rfl⟩ := List.exists_of_length_succ v hl2
  have hl3 : v.length = 13 := by simp only [List.length_cons] at hl2; omega
  obtain ⟨b3, v, rfl⟩ := List.exists_of_length_succ v hl3
  have hl4 : v.length = 12 := by simp only [List.length_cons] at hl3; omega
  obtain ⟨b4, v, rfl⟩ := List.exists_of_length_succ v hl4
  have hl5 : v.length = 11 := by simp only [List.length_cons] at hl4; omega
  obtain ⟨b5, v, rfl⟩ := List.exists_of_length_succ v hl5
  have hl6 : v.length = 10 := by simp only [List.length_cons] at hl5; omega
  obtain ⟨b6, v, rfl⟩ := List.exists_of_length_succ v hl6
  have hl7 : v.length = 9 := by simp only [List.length_cons] at hl6; omega
  obtain ⟨b7, v, rfl⟩ := List.exists_of_length_succ v hl7
  have hl8 : v.length = 8 := by simp only [List.length_cons] at hl7; omega
  obtain ⟨b8, v, rfl⟩ := List.exists_of_length_succ v hl8
  have hl9 : v.length = 7 := by simp only [List.length_cons] at hl8; omega
  obtain ⟨b9, v, rfl⟩ := List.exists_of_length_succ v hl9
  have hl10 : v.length = 6 := by simp only [List.length_cons] at hl9; omega
  obtain ⟨b10, v, rfl⟩ := List.exists_of_length_succ v hl10
  have hl11 : v.length = 5 := by simp only [List.length_cons] at hl10; omega
  obtain ⟨b11, v, rfl⟩ := List.exists_of_length_succ v hl11
  have hl12 : v.length = 4 := by simp only [List.length_cons] at hl11; omega
  obtain ⟨b12, v, rfl⟩ := List.exists_of_length_succ v hl12
  have hl13 : v.length = 3 := by simp only [List.length_cons] at hl12; omega
  obtain ⟨b13, v, rfl⟩ := List.exists_of_length_succ v hl13
  have hl14 : v.length = 2 := by simp only [List.length_cons] at hl13; omega
  obtain ⟨b14, v, rfl⟩ := List.exists_of_length_succ v hl14
  have hl15 : v.length = 1 := by simp only [List.length_cons] at hl14; omega
  obtain ⟨b15, v, rfl⟩ := List.exists_of_length_succ v hl15
  have hl16 : v.length = 0 := by simp only [List.length_cons] at hl15; omega
  obtain rfl : v = [] := List.length_eq_zero.mp hl16
  have h0 : b0 < 256 := hb b0 (by simp)
  have h1 : b1 < 256 := hb b1 (by simp)
  have h2 : b2 < 256 := hb b2 (by simp)
  have h3 : b3 < 256 := hb b3 (by simp)
  have h4 : b4 < 256 := hb b4 (by simp)
  have h5 : b5 < 256 := hb b5 (by simp)
  have h6 : b6 < 256 := hb b6 (by simp)
  have h7 : b7 < 256 := hb b7 (by simp)
  have h8 : b8 < 256 := hb b8 (by simp)
  have h9 : b9 < 256 := hb b9 (by simp)
  have h10 : b10 < 256 := hb b10 (by simp)
  have h11 : b11 < 256 := hb b11 (by simp)
  have h12 : b12 < 256 := hb b12 (by simp)
  have h13 : b13 < 256 := hb b13 (by simp)
  have h14 : b14 < 256 := hb b14 (by simp)
  have h15 : b15 < 256 := hb b15 (by simp)
  have hlen : (uuidToString [b0, b1, b2, b3, b4, b5, b6, b7, b8, b9, b10, b11, b12, b13, b14, b15]).length = 36 := rfl
  have hdash : ((uuidToString [b0, b1, b2, b3, b4, b5, b6, b7, b8, b9, b10, b11, b12, b13, b14, b15]).getD 8 ' ' == '-'
      && (uuidToString [b0, b1, b2, b3, b4, b5, b6, b7, b8, b9, b10, b11, b12, b13, b14, b15]).getD 13 ' ' == '-'
      && (uuidToString [b0, b1, b2, b3, b4, b5, b6, b7, b8, b9, b10, b11, b12, b13, b14, b15]).getD 18 ' ' == '-'
      && (uuidToString [b0, b1, b2, b3, b4, b5, b6, b7, b8, b9, b10, b11, b12, b13, b14, b15]).getD 23 ' ' == '-') = true := rfl
  have hu : uuidParse (uuidToString [b0, b1, b2, b3, b4, b5, b6, b7, b8, b9, b10, b11, b12, b13, b14, b15])
      = parseCanonical (uuidToString [b0, b1, b2, b3, b4, b5, b6, b7, b8, b9, b10, b11, b12, b13, b14, b15]) := by
    unfold uuidParse
    rw [if_pos hlen]
  have hcan : parseCanonical (uuidToString [b0, b1, b2, b3, b4, b5, b6, b7, b8, b9, b10, b11, b12, b13, b14, b15])
      = readPairs (uuidToString [b0, b1, b2, b3, b4, b5, b6, b7, b8, b9, b10, b11, b12, b13, b14, b15]) hexPositions := by
    unfold parseCanonical
    rw [hdash]
    simp
  rw [hu, hcan]
  simp only [hexPositions]
  refine readPairs_cons _ _ _ _ _ (xtob_hexPair b0 h0) ?_
  refine readPairs_cons _ _ _ _ _ (xtob_hexPair b1 h1) ?_
  refine readPairs_cons _ _ _ _ _ (xtob_hexPair b2 h2) ?_
  refine readPairs_cons _ _ _ _ _ (xtob_hexPair b3 h3) ?_
  refine readPairs_cons _ _ _ _ _ (xtob_hexPair b4 h4) ?_
  refine readPairs_cons _ _ _ _ _ (xtob_hexPair b5 h5) ?_
  refine readPairs_cons _ _ _ _ _ (xtob_hexPair b6 h6) ?_
  refine readPairs_cons _ _ _ _ _ (xtob_hexPair b7 h7) ?_
  refine readPairs_cons _ _ _ _ _ (xtob_hexPair b8 h8) ?_
  refine readPairs_cons _ _ _ _ _ (xtob_hexPair b9 h9) ?_
  refine readPairs_cons _ _ _ _ _ (xtob_hexPair b10 h10) ?_
  refine readPairs_cons _ _ _ _ _ (xtob_hexPair b11 h11) ?_
  refine readPairs_cons _ _ _ _ _ (xtob_hexPair b12 h12) ?_
  refine readPairs_cons _ _ _ _ _ (xtob_hexPair b13 h13) ?_
  refine readPairs_cons _ _ _ _ _ (xtob_hexPair b14 h14) ?_
  refine readPairs_cons _ _ _ _ _ (xtob_hexPair b15 h15) ?_
  rfl

/-! ## The tabular-storage bridge

Inputs and outputs of `driver.Valuer`/`sql.Scanner` are modelled by
`DriverValue`: a storage null, a byte payload, a text payload, or any other
driver type (`other`). -/

inductive DriverValue
  | null
  | bytes (b : List Nat)
  | str (s : List Char)
  | other
deriving DecidableEq

inductive ScanError
  | invalidString
  | invalidBytes
  | unsupportedType
deriving DecidableEq

/-- `XUID.Value` of the string-emitting revision: null for `uuid.Nil`,
otherwise `x.uuid.String()`.  The Go error result is always nil. -/
def XUID.value (x : XUID) : DriverValue :=
  if x.uuid = nilUUID then .null else .str (uuidToString x.uuid)

/-- `XUID.Value` of the byte-emitting revision (`sql.go`): null for
`uuid.Nil`, otherwise the raw `x.uuid[:]` bytes. -/
def XUID.valueBytesVariant (x : XUID) : DriverValue :=
  if x.uuid = nilUUID then .null else .bytes x.uuid

/-- `XUID.Scan` of the revision that accepts strings and byte slices.
The receiver is mutated only on success; the pair returns the new receiver
state and the optional error. -/
def XUID.scan (x : XUID) (v : DriverValue) : XUID × Option ScanError :=
  match v with
  | .null => (⟨nilUUID, []⟩, none)
  | .str s =>
    match uuidParse s with
    | none => (x, some .invalidString)
    | some u => (⟨u, []⟩, none)
  | .bytes b =>
    if b.length = 16 then (⟨b, []⟩, none) else (x, some .invalidBytes)
  | .other => (x, some .unsupportedType)

/-- `XUID.Scan` of the byte-only revision (`sql.go`): a failed `[]byte`
type assertion and a wrong length produce the same error. -/
def XUID.scanBytesVariant (x : XUID) (v : DriverValue) : XUID × Option ScanError :=
  match v with
  | .null => (⟨nilUUID, []⟩, none)
  | .bytes b =>
    if b.length = 16 then (⟨b, []⟩, none) else (x, some .invalidBytes)
  | .str _ => (x, some .invalidBytes)
  | .other => (x, some .invalidBytes)

/-! ## The structured-data bridge

`encoding/json` is an external collaborator; per spec §6 the contract is
"single string scalar in, single string scalar out", so the bridge is
modelled at the scalar level: `JsonScalar.str` is a JSON string scalar,
`JsonScalar.nonString` any other JSON value, on which `json.Unmarshal`
into a `string` fails with a type error. -/

inductive JsonScalar
  | str (s : List Char)
  | nonString
deriving DecidableEq

inductive JsonError
  | typeMismatch
  | parseFailed
deriving DecidableEq

/-- `MarshalJSON`: `json.Marshal(x.String())`. -/
def XUID.marshalJSON (x : XUID) : JsonScalar := .str x.toText

/-- `UnmarshalJSON`: unmarshal a string scalar, then `Parse` it and copy
both fields into the receiver; either failure is surfaced unchanged. -/
def XUID.unmarshalJSON (_x : XUID) (v : JsonScalar) : Except JsonError XUID :=
  match v with
  | .nonString => .error .typeMismatch
  | .str s =>
    match Parse s with
    | .error _ => .error .parseFailed
    | .ok xid => .ok ⟨xid.uuid, xid.tag⟩

/-! ## Helper facts about the canonical text form -/

theorem underscore_mem_toText_cons (v : List Nat) (a : Char) (as : List Char) :
    '_' ∈ XUID.toText ⟨v, a :: as⟩ := by
  simp [XUID.toText]

theorem toText_inj_tag (v1 v2 : List Nat) (t1 t2 : List Char)
    (h : XUID.toText ⟨v1, t1⟩ = XUID.toText ⟨v2, t2⟩) : t1 = t2 := by
  rcases ht1 : t1 with _ | ⟨a1, as1⟩ <;> rcases ht2 : t2 with _ | ⟨a2, as2⟩
  · rfl
  · exfalso
    rw [ht1, ht2] at h
    have hm : '_' ∈ XUID.toText ⟨v1, ([] : List Char)⟩ := by
      rw [h]; exact underscore_mem_toText_cons v2 a2 as2
    rw [XUID.toText] at hm
    simp only [if_pos rfl] at hm
    exact underscore_not_mem_base58Encode v1 hm
  · exfalso
    rw [ht1, ht2] at h
    have hm : '_' ∈ XUID.toText ⟨v2, ([] : List Char)⟩ := by
      rw [← h]; exact underscore_mem_toText_cons v1 a1 as1
    rw [XUID.toText] at hm
    simp only [if_pos rfl] at hm
    exact underscore_not_mem_base58Encode v2 hm
  · have d1 : XUID.toText ⟨v1, a1 :: as1⟩ = (a1 :: as1) ++ '_' :: base58Encode v1 := by
      simp [XUID.toText]
    have d2 : XUID.toText ⟨v2, a2 :: as2⟩ = (a2 :: as2) ++ '_' :: base58Encode v2 := by
      simp [XUID.toText]
    have h' : (a1 :: as1) ++ '_' :: base58Encode v1 = (a2 :: as2) ++ '_' :: base58Encode v2 := by
      rw [← d1, ← d2]
      rw [ht1, ht2] at h
      exact h
    have e1 : lastIndexOf '_' ((a1 :: as1) ++ '_' :: base58Encode v1)
        = some (a1 :: as1).length :=
      lastIndexOf_append_cons _ _ _ (underscore_not_mem_base58Encode v1)
    have e2 : lastIndexOf '_' ((a2 :: as2) ++ '_' :: base58Encode v2)
        = some (a2 :: as2).length :=
      lastIndexOf_append_cons _ _ _ (underscore_not_mem_base58Encode v2)
    rw [h', e2] at e1
    have hlen : (a2 :: as2).length = (a1 :: as1).length := Option.some.inj e1
    exact ((List.append_inj h'.symm hlen).1).symm

/-! ## The claims -/

/-- C1: for every 16-byte value `v` and every tag `t` (the empty tag and
tags containing `'_'` included), parsing the canonical text of `(v, t)`
succeeds and returns the value `v` and the tag `t` unchanged. -/
theorem c1_encode_parse_roundtrip (v : List Nat) (t : List Char)
    (hl : v.length = 16) (hb : ∀ x ∈ v, x < 256) :
    Parse (XUID.toText ⟨v, t⟩) = Except.ok ⟨v, t⟩ :=
  parse_toText v t hl hb

/-- Witness for C1 at the concrete value of the spec's scenario and the
separator-carrying tag `"a_b"`. -/
theorem c1_encode_parse_roundtrip_witness :
    ([85, 14, 132, 0, 226, 155, 65, 212, 167, 22, 68, 102, 85, 68, 0, 0] : List Nat).length = 16
    ∧ Parse (XUID.toText ⟨[85, 14, 132, 0, 226, 155, 65, 212, 167, 22, 68, 102, 85, 68, 0, 0],
        ['a', '_', 'b']⟩)
      = Except.ok ⟨[85, 14, 132, 0, 226, 155, 65, 212, 167, 22, 68, 102, 85, 68, 0, 0],
        ['a', '_', 'b']⟩ :=
  ⟨by decide,
    c1_encode_parse_roundtrip [85, 14, 132, 0, 226, 155, 65, 212, 167, 22, 68, 102, 85, 68, 0, 0]
      ['a', '_', 'b'] (by decide) (by decide)⟩

/-- C2: `Parse` splits its input at the last `'_'` (without one, the whole
input is the payload and the tag is empty), and fails with `ErrParse`
exactly when the base58 payload does not decode to 16 bytes. -/
theorem c2_parse_split (s t p : List Char) :
    ('_' ∉ s →
      Parse s = if (base58Decode s).length = 16
        then Except.ok ⟨base58Decode s, []⟩ else Except.error XuidError.errParse)
    ∧ (s = t ++ '_' :: p → '_' ∉ p →
      Parse s = if (base58Decode p).length = 16
        then Except.ok ⟨base58Decode p, t⟩ else Except.error XuidError.errParse)
    ∧ ('_' ∈ s → ∃ t2 p2, s = t2 ++ '_' :: p2 ∧ '_' ∉ p2) := by
  refine ⟨fun hno => ?_, fun hs hp => ?_, exists_last_sep_split s⟩
  · unfold Parse
    rw [splitTag_no_sep s hno]
  · unfold Parse
    rw [hs, splitTag_append t p hp]

/-- Witness for C2 at `"a_b"`: the payload `"b"` does not decode to
16 bytes, so parsing fails. -/
theorem c2_parse_split_witness :
    (['a', '_', 'b'] : List Char) = ['a'] ++ '_' :: ['b']
    ∧ Parse ['a', '_', 'b'] = if (base58Decode ['b']).length = 16
        then Except.ok ⟨base58Decode ['b'], ['a']⟩ else Except.error XuidError.errParse :=
  ⟨rfl, (c2_parse_split ['a', '_', 'b'] ['a'] ['b']).2.1 rfl (by decide)⟩

/-- C3: `Equal` holds iff the canonical text encodings agree; identifiers
with equal value but different tags are unequal, and identifiers with equal
value and equal tag are equal. -/
theorem c3_equal_characterisation (x y : XUID) :
    (x.equal y = true ↔ x.toText = y.toText)
    ∧ (x.uuid = y.uuid → x.tag ≠ y.tag → x.equal y = false)
    ∧ (x.uuid = y.uuid → x.tag = y.tag → x.equal y = true) := by
  refine ⟨beq_iff_eq, fun hu ht => ?_, fun hu ht => ?_⟩
  · rcases x with ⟨v1, t1⟩
    rcases y with ⟨v2, t2⟩
    simp only at hu ht
    subst hu
    have : XUID.toText ⟨v1, t1⟩ ≠ XUID.toText ⟨v1, t2⟩ := by
      intro he
      exact ht (toText_inj_tag v1 v1 t1 t2 he)
    simpa [XUID.equal] using this
  · rcases x with ⟨v1, t1⟩
    rcases y with ⟨v2, t2⟩
    simp only at hu ht
    subst hu
    subst ht
    simp [XUID.equal]

/-- Witness for C3: same all-zero value, tags `"a"` and `"b"`. -/
theorem c3_equal_characterisation_witness :
    (nilUUID = nilUUID)
    ∧ XUID.equal ⟨nilUUID, ['a']⟩ ⟨nilUUID, ['b']⟩ = false :=
  ⟨rfl, (c3_equal_characterisation ⟨nilUUID, ['a']⟩ ⟨nilUUID, ['b']⟩).2.1 rfl (by decide)⟩

/-- C8: the canonical text encoding is injective on pairs of well-formed
16-byte values and tags. -/
theorem c8_toText_injective (v1 v2 : List Nat) (t1 t2 : List Char)
    (hl1 : v1.length = 16) (hb1 : ∀ x ∈ v1, x < 256)
    (hl2 : v2.length = 16) (hb2 : ∀ x ∈ v2, x < 256)
    (hne : ¬(v1 = v2 ∧ t1 = t2)) :
    XUID.toText ⟨v1, t1⟩ ≠ XUID.toText ⟨v2, t2⟩ := by
  intro heq
  have h1 := parse_toText v1 t1 hl1 hb1
  rw [heq, parse_toText v2 t2 hl2 hb2] at h1
  have h2 := Except.ok.inj h1
  exact hne ⟨(XUID.mk.injEq _ _ _ _).mp h2 |>.1.symm, (XUID.mk.injEq _ _ _ _).mp h2 |>.2.symm⟩

/-- Witness for C8: the zero value with tags `""` and `"a"` produce
different tokens. -/
theorem c8_toText_injective_witness :
    ¬((nilUUID : List Nat) = nilUUID ∧ ([] : List Char) = ['a'])
    ∧ XUID.toText ⟨nilUUID, []⟩ ≠ XUID.toText ⟨nilUUID, ['a']⟩ :=
  ⟨by decide,
    c8_toText_injective nilUUID nilUUID [] ['a'] (by decide) (by decide) (by decide) (by decide)
      (by decide)⟩

/-- The two version-name comparisons of `IsSortable`/`IsRandom`, decided for
every possible version nibble. -/
theorem versionName_checks : ∀ w, w < 16 →
    (versionName w == "VERSION_7".toList) = decide (w = 7)
    ∧ (versionName w == "VERSION_4".toList) = decide (w = 4) := by
  decide

/-- C9: `IsSortable` holds exactly for version 7, `IsRandom` exactly for
version 4, never both, and both are false for any other version such as 1. -/
theorem c9_mode_exclusivity (x : XUID) (hb : ∀ b ∈ x.uuid, b < 256) :
    (x.isSortable = true ↔ x.version = 7)
    ∧ (x.isRandom = true ↔ x.version = 4)
    ∧ ¬(x.isSortable = true ∧ x.isRandom = true)
    ∧ (x.version = 1 → x.isSortable = false ∧ x.isRandom = false) := by
  have hb6 : x.uuid.getD 6 0 < 256 := by
    by_cases h : 6 < x.uuid.length
    · rw [List.getD_eq_getElem x.uuid 0 h]
      exact hb _ (List.getElem_mem h)
    · rw [List.getD_eq_default x.uuid 0 (Nat.le_of_not_lt h)]
      norm_num
  have hv : x.version < 16 := by
    unfold XUID.version
    omega
  have hk := versionName_checks x.version hv
  refine ⟨?_, ?_, ?_, fun h1 => ?_⟩
  · unfold XUID.isSortable
    rw [hk.1]
    simp
  · unfold XUID.isRandom
    rw [hk.2]
    simp
  · rintro ⟨hs, hr⟩
    unfold XUID.isSortable at hs
    unfold XUID.isRandom at hr
    rw [hk.1] at hs
    rw [hk.2] at hr
    simp at hs hr
    omega
  · unfold XUID.isSortable XUID.isRandom
    rw [hk.1, hk.2, h1]
    exact ⟨by simp, by simp⟩

/-- Witness for C9 at a version-7 value (byte 6 is `0x71`). -/
theorem c9_mode_exclusivity_witness :
    (∀ b ∈ ([0, 0, 0, 0, 0, 0, 113, 0, 0, 0, 0, 0, 0, 0, 0, 0] : List Nat), b < 256)
    ∧ ((XUID.mk [0, 0, 0, 0, 0, 0, 113, 0, 0, 0, 0, 0, 0, 0, 0, 0] []).isSortable = true
      ↔ (XUID.mk [0, 0, 0, 0, 0, 0, 113, 0, 0, 0, 0, 0, 0, 0, 0, 0] []).version = 7) :=
  ⟨by decide, (c9_mode_exclusivity ⟨[0, 0, 0, 0, 0, 0, 113, 0, 0, 0, 0, 0, 0, 0, 0, 0], []⟩
    (by decide)).1⟩

/-- C4: the write path emits null exactly for the all-zero sentinel and
otherwise only a representation of the 16 value bytes (the dashed text in
the string-emitting revision, the raw bytes in the byte-emitting one); the
tag never influences the output. -/
theorem c4_value_never_persists_tag (x y : XUID) :
    (x.value = DriverValue.null ↔ x.uuid = nilUUID)
    ∧ (x.uuid ≠ nilUUID → x.value = DriverValue.str (uuidToString x.uuid))
    ∧ (x.uuid = y.uuid → x.value = y.value)
    ∧ (x.valueBytesVariant = DriverValue.null ↔ x.uuid = nilUUID)
    ∧ (x.uuid ≠ nilUUID → x.valueBytesVariant = DriverValue.bytes x.uuid)
    ∧ (x.uuid = y.uuid → x.valueBytesVariant = y.valueBytesVariant) := by
  refine ⟨?_, fun h => ?_, fun h => ?_, ?_, fun h => ?_, fun h => ?_⟩
  · unfold XUID.value
    split_ifs with h <;> simp [h]
  · simp [XUID.value, h]
  · simp [XUID.value, h]
  · unfold XUID.valueBytesVariant
    split_ifs with h <;> simp [h]
  · simp [XUID.valueBytesVariant, h]
  · simp [XUID.valueBytesVariant, h]

/-- Witness for C4: a non-nil value with a tag writes its dashed text. -/
theorem c4_value_never_persists_tag_witness :
    ([1] : List Nat) ≠ nilUUID
    ∧ XUID.value ⟨[1], ['a']⟩ = DriverValue.str (uuidToString [1]) :=
  ⟨by decide, (c4_value_never_persists_tag ⟨[1], ['a']⟩ ⟨[1], ['a']⟩).2.1 (by decide)⟩

/-- C5: the read path accepts null (empty identifier), 16-byte payloads and
parseable text, rejects everything else, and always produces an empty tag
on success. -/
theorem c5_scan_shapes (r : XUID) :
    XUID.scan r DriverValue.null = (⟨nilUUID, []⟩, none)
    ∧ (∀ b : List Nat, b.length = 16 →
        XUID.scan r (DriverValue.bytes b) = (⟨b, []⟩, none))
    ∧ (∀ b : List Nat, b.length ≠ 16 →
        XUID.scan r (DriverValue.bytes b) = (r, some ScanError.invalidBytes))
    ∧ (∀ s u, uuidParse s = some u →
        XUID.scan r (DriverValue.str s) = (⟨u, []⟩, none))
    ∧ (∀ s, uuidParse s = none →
        XUID.scan r (DriverValue.str s) = (r, some ScanError.invalidString))
    ∧ XUID.scan r DriverValue.other = (r, some ScanError.unsupportedType)
    ∧ (∀ v y, XUID.scan r v = (y, none) → y.tag = []) := by
  refine ⟨rfl, fun b h => by simp [XUID.scan, h], fun b h => by simp [XUID.scan, h],
    fun s u h => by simp [XUID.scan, h], fun s h => by simp [XUID.scan, h], rfl,
    fun v y h => ?_⟩
  cases v with
  | null =>
    simp only [XUID.scan, Prod.mk.injEq] at h
    rw [← h.1]
  | bytes b =>
    by_cases hb : b.length = 16
    · simp only [XUID.scan, if_pos hb, Prod.mk.injEq] at h
      rw [← h.1]
    · simp [XUID.scan, if_neg hb] at h
  | str s =>
    rcases hu : uuidParse s with _ | u
    · simp [XUID.scan, hu] at h
    · simp only [XUID.scan, hu, Prod.mk.injEq] at h
      rw [← h.1]
  | other => simp [XUID.scan] at h

/-- Witness for C5: scanning the 16 zero bytes succeeds with an empty tag. -/
theorem c5_scan_shapes_witness :
    (nilUUID.length = 16)
    ∧ XUID.scan ⟨[2], ['z']⟩ (DriverValue.bytes nilUUID) = (⟨nilUUID, []⟩, none) :=
  ⟨by decide, (c5_scan_shapes ⟨[2], ['z']⟩).2.1 nilUUID (by decide)⟩

/-- C6: writing an identifier and scanning the result back recovers the
16-byte value with an empty tag; the nil identifier writes null, and
scanning null yields the empty identifier with empty tag. -/
theorem c6_storage_roundtrip (x r : XUID) (hl : x.uuid.length = 16)
    (hb : ∀ b ∈ x.uuid, b < 256) :
    XUID.scan r x.value = (⟨x.uuid, []⟩, none)
    ∧ (∀ t : List Char, XUID.value ⟨nilUUID, t⟩ = DriverValue.null)
    ∧ XUID.scan r DriverValue.null = (⟨nilUUID, []⟩, none) := by
  refine ⟨?_, fun t => by simp [XUID.value], rfl⟩
  by_cases h : x.uuid = nilUUID
  · simp [XUID.value, h, XUID.scan]
  · simp [XUID.value, h, XUID.scan, uuidParse_toString x.uuid hl hb]

/-- Witness for C6 at the spec's concrete value with tag `"user"`. -/
theorem c6_storage_roundtrip_witness :
    ([85, 14, 132, 0, 226, 155, 65, 212, 167, 22, 68, 102, 85, 68, 0, 0] : List Nat).length = 16
    ∧ XUID.scan ⟨[3], ['q']⟩
        (XUID.value ⟨[85, 14, 132, 0, 226, 155, 65, 212, 167, 22, 68, 102, 85, 68, 0, 0],
          ['u', 's', 'e', 'r']⟩)
      = (⟨[85, 14, 132, 0, 226, 155, 65, 212, 167, 22, 68, 102, 85, 68, 0, 0], []⟩, none) :=
  ⟨by decide,
    (c6_storage_roundtrip
      ⟨[85, 14, 132, 0, 226, 155, 65, 212, 167, 22, 68, 102, 85, 68, 0, 0], ['u', 's', 'e', 'r']⟩
      ⟨[3], ['q']⟩ (by decide) (by decide)).1⟩

/-- C7: marshalling emits the canonical text as a string scalar;
unmarshalling that scalar succeeds with an identifier equal to the original
under text-encoding equality; a non-string scalar or an unparseable string
is rejected. -/
theorem c7_json_bridge (x r : XUID) (hl : x.uuid.length = 16)
    (hb : ∀ b ∈ x.uuid, b < 256) :
    x.marshalJSON = JsonScalar.str x.toText
    ∧ XUID.unmarshalJSON r x.marshalJSON = Except.ok x
    ∧ (∀ y, XUID.unmarshalJSON r x.marshalJSON = Except.ok y → y.equal x = true)
    ∧ XUID.unmarshalJSON r JsonScalar.nonString = Except.error JsonError.typeMismatch
    ∧ (∀ s e, Parse s = Except.error e →
        XUID.unmarshalJSON r (JsonScalar.str s) = Except.error JsonError.parseFailed) := by
  have hok : XUID.unmarshalJSON r x.marshalJSON = Except.ok x := by
    rcases x with ⟨v, t⟩
    simp [XUID.marshalJSON, XUID.unmarshalJSON, parse_toText v t hl hb]
  refine ⟨rfl, hok, fun y hy => ?_, rfl, fun s e he => ?_⟩
  · rw [hok] at hy
    rw [← Except.ok.inj hy]
    simp [XUID.equal]
  · simp [XUID.unmarshalJSON, he]

/-- Witness for C7 at the nil value with tag `"order"`. -/
theorem c7_json_bridge_witness :
    (nilUUID.length = 16)
    ∧ XUID.unmarshalJSON ⟨[1], []⟩
        (XUID.marshalJSON ⟨nilUUID, ['o', 'r', 'd', 'e', 'r']⟩)
      = Except.ok ⟨nilUUID, ['o', 'r', 'd', 'e', 'r']⟩ :=
  ⟨by decide,
    (c7_json_bridge ⟨nilUUID, ['o', 'r', 'd', 'e', 'r']⟩ ⟨[1], []⟩
      (by decide) (by decide)).2.1⟩

/-- C10: whenever a scan fails, the receiver is left unchanged (both
revisions of `Scan`). -/
theorem c10_scan_atomic_on_failure (r y : XUID) (v : DriverValue) (e : ScanError) :
    (XUID.scan r v = (y, some e) → y = r)
    ∧ (XUID.scanBytesVariant r v = (y, some e) → y = r) := by
  constructor <;> intro h
  · cases v with
    | null => simp [XUID.scan] at h
    | bytes b =>
      by_cases hb : b.length = 16
      · simp [XUID.scan, hb] at h
      · simp only [XUID.scan, if_neg hb, Prod.mk.injEq] at h
        rw [← h.1]
    | str s =>
      rcases hu : uuidParse s with _ | u
      · simp only [XUID.scan, hu, Prod.mk.injEq] at h
        rw [← h.1]
      · simp [XUID.scan, hu] at h
    | other =>
      simp only [XUID.scan, Prod.mk.injEq] at h
      rw [← h.1]
  · cases v with
    | null => simp [XUID.scanBytesVariant] at h
    | bytes b =>
      by_cases hb : b.length = 16
      · simp [XUID.scanBytesVariant, hb] at h
      · simp only [XUID.scanBytesVariant, if_neg hb, Prod.mk.injEq] at h
        rw [← h.1]
    | str s =>
      simp only [XUID.scanBytesVariant, Prod.mk.injEq] at h
      rw [← h.1]
    | other =>
      simp only [XUID.scanBytesVariant, Prod.mk.injEq] at h
      rw [← h.1]

/-- Witness for C10: an unsupported driver type fails and leaves the
receiver untouched. -/
theorem c10_scan_atomic_on_failure_witness :
    XUID.scan ⟨[1], ['a']⟩ DriverValue.other
      = (⟨[1], ['a']⟩, some ScanError.unsupportedType)
    ∧ (⟨[1], ['a']⟩ : XUID) = ⟨[1], ['a']⟩ :=
  ⟨rfl,
    (c10_scan_atomic_on_failure ⟨[1], ['a']⟩ ⟨[1], ['a']⟩ DriverValue.other
      ScanError.unsupportedType).1 rfl⟩

end Xuid
